import Mathlib

set_option maxRecDepth 4000000

/-!
Verification development for the WEIRD portal renderer.

The development shallowly embeds the Rust sources of the repository:

* `camera.rs`  — the `Camera` structure and `Camera::to_space`;
* `map.rs`     — sectors, edges, `Sector::contains`, `Map::find_sector`,
                 `Map::find_adjacent_sector` (namespace `Wmap`);
* `main.rs`    — the renderer: its own copies of `Sector`/`contains`/
                 `find_sector`, and `Render::render_sector` / `Render::render`
                 (namespace `Wmain`).

Modelling conventions:

* `f32` values are modelled as exact rationals represented by an
  unreduced fraction `F32 = num / den` with, by construction of every
  operation below, a positive denominator.  Rounding of `f32` arithmetic
  is not modelled; every claim treated here is about the control and
  data-flow structure of the code, or is settled on concrete inputs on
  which the real `f32` computation is exact or has the same sign/order
  behaviour.
* The Rust cast `as isize` applied to an `f32` truncates toward zero;
  it is modelled by `F32.trunc` (`Int.tdiv` of the fraction).
* `f32::sqrt` is modelled by `F32.fsqrt`, an integer square root of
  numerator and denominator.  It is exact exactly on fractions whose
  numerator and denominator are perfect squares; all concrete runs used
  by theorems below only take square roots of such values.  Division by
  zero yields `0` (where `f32` would give `inf`); no theorem below
  depends on the value produced in that situation.
* `std::mem::transmute::<u8, bool>(v)` (in `main.rs`'s `Sector::contains`)
  is modelled as reading bit 0 of `v`.  For `v ∈ {2, 3}` the Rust cast is
  undefined behaviour; bit 0 agrees with the commented-out pure-Boolean
  variant kept next to it in `map.rs` line 108.
* The `u8` sign-bit collector only ever holds values `0..3`, so it is
  modelled by `Nat` (no overflow is reachable).
* Raw pointer writes of the column-fill loops are modelled by recording
  an explicit list of `(row, col, color)` writes; the final pixel buffer
  is obtained by `applyWrites`, which replays them in order onto a
  row-major buffer.
-/

/-- Exact-rational model of `f32`: an unreduced fraction.  Every operation
below keeps the denominator positive. -/
structure F32 where
  num : Int
  den : Int
deriving DecidableEq, Repr

instance : OfNat F32 n := ⟨⟨(n : Int), 1⟩⟩

instance : Inhabited F32 := ⟨0⟩

/-- Conversion of an unsigned integer to `F32` (Rust `as f32`). -/
def F32.ofNat (n : Nat) : F32 := ⟨(n : Int), 1⟩

/-- Addition of fractions (no normalisation needed for the model). -/
def F32.add (a b : F32) : F32 := ⟨a.num * b.den + b.num * a.den, a.den * b.den⟩

/-- Negation of a fraction. -/
def F32.neg (a : F32) : F32 := ⟨-a.num, a.den⟩

/-- Subtraction of fractions. -/
def F32.sub (a b : F32) : F32 := ⟨a.num * b.den - b.num * a.den, a.den * b.den⟩

/-- Multiplication of fractions. -/
def F32.mul (a b : F32) : F32 := ⟨a.num * b.num, a.den * b.den⟩

/-- Division of fractions, keeping the denominator positive; division by an
exact zero yields `0` (see the model notes above). -/
def F32.div (a b : F32) : F32 :=
  if b.num = 0 then ⟨0, 1⟩
  else if b.num < 0 then ⟨-(a.num * b.den), a.den * (-b.num)⟩
  else ⟨a.num * b.den, a.den * b.num⟩

/-- Absolute value of a fraction (denominators are positive). -/
def F32.abs (a : F32) : F32 := if a.num < 0 then ⟨-a.num, a.den⟩ else a

instance : Add F32 := ⟨F32.add⟩
instance : Sub F32 := ⟨F32.sub⟩
instance : Mul F32 := ⟨F32.mul⟩
instance : Div F32 := ⟨F32.div⟩
instance : Neg F32 := ⟨F32.neg⟩

instance : LT F32 := ⟨fun a b => a.num * b.den < b.num * a.den⟩

instance : LE F32 := ⟨fun a b => a.num * b.den ≤ b.num * a.den⟩

instance (a b : F32) : Decidable (a < b) :=
  inferInstanceAs (Decidable (a.num * b.den < b.num * a.den))

instance (a b : F32) : Decidable (a ≤ b) :=
  inferInstanceAs (Decidable (a.num * b.den ≤ b.num * a.den))

/-- Truncation toward zero (the Rust `as isize` cast on a finite `f32`,
saturation aside — every use below is clamped right after). -/
def F32.trunc (a : F32) : Int := Int.tdiv a.num a.den

/-- Linear-search integer square root, structurally recursive so that the
kernel can evaluate it on concrete inputs. -/
def isqrtAux : Nat → Nat → Nat
  | 0, _ => 0
  | k+1, n => if (k+1)*(k+1) ≤ n then k+1 else isqrtAux k n

/-- Integer square root: the largest `k ≤ n` with `k * k ≤ n`. -/
def isqrt (n : Nat) : Nat := isqrtAux n n

/-- Model of `f32::sqrt`: exact on fractions of perfect squares, an
unspecified stand-in elsewhere (see the model notes). -/
def F32.fsqrt (a : F32) : F32 := ⟨(isqrt a.num.toNat : Int), (isqrt a.den.toNat : Int)⟩

/-- Rust `clamp` on `isize` (`self < min → min`, `self > max → max`). -/
def iclamp (v lo hi : Int) : Int := if v < lo then lo else if hi < v then hi else v

/-- Half-open row/column range `[a, b)` (empty when `b ≤ a`). -/
def rowRange (a b : Nat) : List Nat := List.range' a (b - a)

/-- The 2-D float vector `Vec2f` of `math.rs`. -/
structure Vec2 where
  x : F32
  y : F32
deriving DecidableEq, Repr

/-- The `Camera` of `camera.rs`: pose plus the precomputed `direction`,
`right` and location dot-product caches. -/
structure Camera where
  location : Vec2
  height : F32
  rotation : F32
  direction : Vec2
  right : Vec2
  location_dot_direction : F32
  location_dot_right : F32
deriving DecidableEq, Repr

/-- `Camera::to_space` (camera.rs lines 73-78): world point to camera space
via the precomputed dot products. -/
def Camera.to_space (c : Camera) (p : Vec2) : Vec2 :=
  ⟨p.x * c.right.x + p.y * c.right.y - c.location_dot_right,
   p.x * c.direction.x + p.y * c.direction.y - c.location_dot_direction⟩

/-- Sign bit of the `f32` result of the half-plane evaluation: `1` for a
negative value, `0` otherwise (`transmute::<f32,u32>(x) >> 31`). -/
def signBit (q : F32) : Nat := if q < 0 then 1 else 0

/-- Cyclic successor pairing used by `build_edges` in both `map.rs` and
`main.rs`: `points.iter().zip(cycle-shifted points)`. -/
def cyclePairs {α : Type} (l : List α) : List (α × α) :=
  l.zip (l.drop 1 ++ l.take 1)

namespace Wmap

/-- `EdgeType` of `map.rs`: wall, or portal to a sector id. -/
inductive EdgeType where
  | wall : EdgeType
  | portal : Nat → EdgeType
deriving DecidableEq, Repr

/-- `Edge` of `map.rs`: endpoints, direction, the precomputed cross product
and the edge type. -/
structure Edge where
  p0 : Vec2
  p1 : Vec2
  d : Vec2
  d_cross_p0 : F32
  ty : EdgeType
deriving DecidableEq, Repr

/-- `Sector::build_edges` of `map.rs` (lines 72-96): one edge per cyclically
consecutive pair of points, with `d = right - left` and
`d_cross_p0 = d.x*left.y - d.y*left.x`; the type is initially `Wall`. -/
def build_edges (points : List Vec2) : List Edge :=
  (cyclePairs points).map (fun pr =>
    let d : Vec2 := ⟨pr.2.x - pr.1.x, pr.2.y - pr.1.y⟩
    { p0 := pr.1, p1 := pr.2, d := d,
      d_cross_p0 := d.x * pr.1.y - d.y * pr.1.x, ty := EdgeType.wall })

/-- Loader step of `map.rs` lines 403-407: overwrite the edge types of
freshly built edges. -/
def set_edge_types (edges : List Edge) (tys : List EdgeType) : List Edge :=
  (edges.zip tys).map (fun pr => { pr.1 with ty := pr.2 })

/-- `Sector` of `map.rs`. -/
structure Sector where
  points : List Vec2
  edges : List Edge
  floor : F32
  ceiling : F32
deriving DecidableEq, Repr

/-- Half-plane value `d.x*point.y - d.y*point.x - d_cross_p0` evaluated by
`Sector::contains` for one edge. -/
def edgeCoef (line : Edge) (p : Vec2) : F32 :=
  line.d.x * p.y - line.d.y * p.x - line.d_cross_p0

/-- Sign-bit collector of `Sector::contains` (map.rs lines 102-106):
`sign_collector |= 1 << sign_bit(coef)` over all edges. -/
def sign_collector (s : Sector) (p : Vec2) : Nat :=
  s.edges.foldl (fun sc line => sc ||| (1 <<< signBit (edgeCoef line p))) 0

/-- `Sector::contains` of `map.rs` (lines 101-109): the collector must be
neither `0` nor `3`. -/
def Sector.contains (s : Sector) (p : Vec2) : Bool :=
  sign_collector s p != 0 && sign_collector s p != 3

/-- `Map` of `map.rs`. -/
structure Map where
  sectors : List Sector
  camera_location : Vec2
  camera_height : F32
  camera_rotation : F32
deriving DecidableEq, Repr

/-- `Map::get_sector`: index lookup, `None` when out of range. -/
def Map.get_sector (m : Map) (id : Nat) : Option Sector :=
  m.sectors.get? id

/-- Enumerated first-match scan underlying `Map::find_sector`. -/
def findSectorAux (p : Vec2) : List Sector → Nat → Option Nat
  | [], _ => none
  | s :: rest, i => if s.contains p then some i else findSectorAux p rest (i + 1)

/-- `Map::find_sector` (map.rs lines 176-182): first sector containing the
point, scanning in index order. -/
def Map.find_sector (m : Map) (p : Vec2) : Option Nat :=
  findSectorAux p m.sectors 0

/-- Portal targets of a sector's edges, in edge order (the
`filter_map` of map.rs lines 199-205). -/
def portalTargets (s : Sector) : List Nat :=
  s.edges.filterMap (fun e =>
    match e.ty with
    | EdgeType.portal id => some id
    | EdgeType.wall => none)

/-- `Map::find_adjacent_sector` (map.rs lines 188-211): retest the hint
sector, then the sectors one portal hop away, in edge order. -/
def Map.find_adjacent_sector (m : Map) (p : Vec2) (adjacent_for : Nat) : Option Nat :=
  match m.get_sector adjacent_for with
  | none => none
  | some sector =>
    if sector.contains p then some adjacent_for
    else
      (((portalTargets sector).filterMap
          (fun id => (m.sectors.get? id).map (fun s => (id, s)))).find?
        (fun pr => pr.2.contains p)).map (fun pr => pr.1)

/-- `Map::find_sector_from_old` (map.rs lines 217-220). -/
def Map.find_sector_from_old (m : Map) (p : Vec2) (old_sector : Nat) : Option Nat :=
  (m.find_adjacent_sector p old_sector).orElse (fun _ => m.find_sector p)

end Wmap

namespace Wmain

/-- `EdgeType` of `main.rs` (lines 17-22). -/
inductive EdgeType where
  | wall : EdgeType
  | portal : Nat → EdgeType
deriving DecidableEq, Repr

/-- `Edge` of `main.rs` (lines 24-30): no embedded type tag; the sector
stores the types in a parallel list. -/
structure Edge where
  p0 : Vec2
  p1 : Vec2
  d : Vec2
  d_cross_p0 : F32
deriving DecidableEq, Repr

/-- `Sector` of `main.rs` (lines 42-48). -/
structure Sector where
  points : List Vec2
  edge_types : List EdgeType
  edges : List Edge
  floor : F32
  ceiling : F32
deriving DecidableEq, Repr

/-- `Sector::build_edges` of `main.rs` (lines 68-91). -/
def build_edges (points : List Vec2) : List Edge :=
  (cyclePairs points).map (fun pr =>
    let d : Vec2 := ⟨pr.2.x - pr.1.x, pr.2.y - pr.1.y⟩
    { p0 := pr.1, p1 := pr.2, d := d,
      d_cross_p0 := d.x * pr.1.y - d.y * pr.1.x })

/-- Half-plane value evaluated by the `main.rs` `Sector::contains` for one
edge. -/
def edgeCoef (line : Edge) (p : Vec2) : F32 :=
  line.d.x * p.y - line.d.y * p.x - line.d_cross_p0

/-- Sign-bit collector of `Sector::contains` in `main.rs` (lines 95-103). -/
def sign_collector (s : Sector) (p : Vec2) : Nat :=
  s.edges.foldl (fun sc line => sc ||| (1 <<< signBit (edgeCoef line p))) 0

/-- `Sector::contains` of `main.rs` (lines 94-108):
`transmute::<u8,bool>(sign_collector ^ (sign_collector >> 1))`, modelled as
reading bit 0 of the xor (see the model notes on `transmute`). -/
def Sector.contains (s : Sector) (p : Vec2) : Bool :=
  (sign_collector s p ^^^ (sign_collector s p >>> 1)) &&& 1 == 1

/-- `Map` of `main.rs` (lines 131-135): no camera height field. -/
structure Map where
  sectors : List Sector
  camera_location : Vec2
  camera_rotation : F32
deriving DecidableEq, Repr

/-- `Map::get_sector` of `main.rs` (lines 159-161). -/
def Map.get_sector (m : Map) (id : Nat) : Option Sector :=
  m.sectors.get? id

/-- Enumerated first-match scan underlying `Map::find_sector` of `main.rs`. -/
def findSectorAux (p : Vec2) : List Sector → Nat → Option Nat
  | [], _ => none
  | s :: rest, i => if s.contains p then some i else findSectorAux p rest (i + 1)

/-- `Map::find_sector` of `main.rs` (lines 151-157). -/
def Map.find_sector (m : Map) (p : Vec2) : Option Nat :=
  findSectorAux p m.sectors 0

/-- Immutable part of `SectorRenderContext` (main.rs lines 359-367): the
map, the camera and the surface extent. -/
structure Ctx where
  map : Map
  camera : Camera
  w : Nat
  h : Nat

/-- Record of one recursive portal descent actually performed by
`render_sector` (main.rs lines 665-673): the visited-sector stack at the
moment of the call (current sector already pushed), the target sector id and
the column span passed down. -/
structure DescendEv where
  stack : List Nat
  target : Nat
  xp0 : Nat
  xp1 : Nat
deriving DecidableEq, Repr

/-- Record of one per-column scan-buffer update (main.rs lines 625-642):
the sector being drawn, the column, the inverse distance, and the old/new
ceiling and floor buffer entries. -/
structure ColEv where
  sid : Nat
  x : Nat
  invDist : F32
  oldCeil : Nat
  newCeil : Nat
  oldFloor : Nat
  newFloor : Nat
deriving DecidableEq, Repr

/-- One raw pixel write `surface.data[row * width + col] = color`. -/
structure PixWrite where
  row : Nat
  col : Nat
  color : Nat
deriving DecidableEq, Repr

/-- Mutable part of `SectorRenderContext`: the visited-sector stack and the
per-column scan buffers, plus the observation traces (pixel writes, portal
descents, buffer updates) that the theorems below quantify over. -/
structure RState where
  visitStack : List Nat
  floorBuf : List Nat
  ceilBuf : List Nat
  invDepthBuf : List F32
  writes : List PixWrite
  descends : List DescendEv
  colEvents : List ColEv
deriving DecidableEq, Repr

instance : Inhabited RState := ⟨⟨[], [], [], [], [], [], []⟩⟩

/-- Fresh per-frame state built by `Render::render` (main.rs lines 682-702):
floor buffer full of `height`, ceiling buffer full of `0`, inverse-depth
buffer full of `0.0`, empty visit stack. -/
def mkState (w h : Nat) : RState :=
  ⟨[], List.replicate w h, List.replicate w 0, List.replicate w 0, [], [], []⟩

/-- Clamped half-height of the painted column span (main.rs line 625):
`clamp((inv_distance * height) as isize, 0, height/2)`. -/
def yOf (h : Nat) (invDistance : F32) : Nat :=
  (iclamp (invDistance * F32.ofNat h).trunc 0 ((h / 2 : Nat) : Int)).toNat

/-- Per-column body of the span loop of `render_sector` (main.rs lines
616-663): compute the inverse distance along the pixel ray, clamp the
half-height `y`, repaint the three bands between the old buffer values and
the new ceiling/floor rows, and store the new rows and inverse depth. -/
def columnUpdate (ctx : Ctx) (sid : Nat) (isPortal : Bool) (color floorColor : Nat)
    (edgeNorm : Vec2) (invEdgeDistance : F32) (st : RState) (x : Nat) : RState :=
  let pixelDir : Vec2 := ⟨F32.ofNat x / F32.ofNat ctx.w * 2 - 1, 1⟩
  let invDistance := F32.abs (pixelDir.x * edgeNorm.x + pixelDir.y * edgeNorm.y) * invEdgeDistance
  let y : Nat := yOf ctx.h invDistance
  let oldFloor := st.floorBuf.getD x 0
  let oldCeil := st.ceilBuf.getD x 0
  let ceilY := ctx.h / 2 - y
  let floorY := ctx.h / 2 + y
  let stop1 := max oldCeil ceilY
  let stop2 := if isPortal then floorY else max stop1 floorY
  let ws := (rowRange oldCeil ceilY).map (fun r => PixWrite.mk r x 0xDDDDDD)
    ++ (if isPortal then [] else (rowRange stop1 floorY).map (fun r => PixWrite.mk r x color))
    ++ (rowRange stop2 oldFloor).map (fun r => PixWrite.mk r x floorColor)
  { st with
    floorBuf := st.floorBuf.set x floorY,
    ceilBuf := st.ceilBuf.set x ceilY,
    invDepthBuf := st.invDepthBuf.set x invDistance,
    writes := st.writes ++ ws,
    colEvents := st.colEvents ++ [⟨sid, x, invDistance, oldCeil, ceilY, oldFloor, floorY⟩] }

/-- Ordering and near-plane clipping of one edge (main.rs lines 548-572):
sort the camera-space endpoints by x; drop the edge when both are at or
behind the camera plane; otherwise replace a behind endpoint by the
interpolated point at depth `0.01`. -/
def clipEdge (q0 q1 : Vec2) : Option (Vec2 × Vec2) :=
  let s0 := if q1.x < q0.x then q1 else q0
  let s1 := if q1.x < q0.x then q0 else q1
  if s0.y ≤ 0 ∧ s1.y ≤ 0 then none
  else
    let clipX := s0.x - s0.y * (s1.x - s0.x) / (s1.y - s0.y)
    some
      (if s0.y ≤ 0 then ⟨clipX, (1 : F32)/100⟩ else s0,
       if s0.y ≤ 0 then s1
       else if s1.y ≤ 0 then ⟨clipX, (1 : F32)/100⟩ else s1)

/-- Screen-column projection `to_screen_x` (main.rs lines 575-577). -/
def to_screen_x (w : Nat) (p : Vec2) : Int :=
  ((p.x / p.y + 1) / 2 * F32.ofNat w).trunc

/-- Projected and clamped column span of an edge (main.rs lines 580-589):
both projected columns are clamped into `[xBegin, xEnd]` and then ordered. -/
def spanOf (xBegin xEnd w : Nat) (p0 p1 : Vec2) : Nat × Nat :=
  let sx0 := iclamp (to_screen_x w p0) (xBegin : Int) (xEnd : Int)
  let sx1 := iclamp (to_screen_x w p1) (xBegin : Int) (xEnd : Int)
  if sx1 < sx0 then (sx1.toNat, sx0.toNat) else (sx0.toNat, sx1.toNat)

/-- Wall and floor debug colors by visit-stack depth (main.rs lines
591-596). -/
def wallColors (depth : Nat) : Nat × Nat :=
  match depth with
  | 0 => (0x00FF00, 0x008800)
  | 1 => (0xFF0000, 0x880000)
  | 2 => (0x0000FF, 0x000088)
  | _ => (0x333333, 0x333333)

/-- Edge normal and inverse camera-edge distance (main.rs lines 599-612). -/
def edgeNormData (p0 p1 : Vec2) : Vec2 × F32 :=
  let unorm : Vec2 := ⟨p1.y - p0.y, p0.x - p1.x⟩
  let invNorm := (1 : F32) / F32.fsqrt (unorm.x * unorm.x + unorm.y * unorm.y)
  let en : Vec2 := ⟨unorm.x * invNorm, unorm.y * invNorm⟩
  (en, (1 : F32) / F32.abs (en.x * p0.x + en.y * p0.y))

/-- Portal tail of the edge loop body (main.rs lines 665-673): push the
current sector id, recurse when the target is not on the stack, pop. -/
def portalStep (recurse : RState → Nat → Nat → Nat → Option RState)
    (sid t sp1 sp2 : Nat) (st1 : RState) : Option RState :=
  let pushed := { st1 with visitStack := st1.visitStack ++ [sid] }
  match (if t ∈ pushed.visitStack then some pushed
         else recurse { pushed with descends := pushed.descends ++ [⟨pushed.visitStack, t, sp1, sp2⟩] } t sp1 sp2) with
  | none => none
  | some st2 => some { st2 with visitStack := st2.visitStack.dropLast }

/-- Body of the edge loop of `render_sector` (main.rs lines 547-674) for a
single edge: camera-space transform, x-ordering, near-plane clip, screen
projection and clamping to the inherited span, the per-column paint loop,
and — for portals — the guarded recursive descent bracketed by the
push/pop of the visited-sector stack. -/
def processEdge (recurse : RState → Nat → Nat → Nat → Option RState) (ctx : Ctx)
    (sid : Nat) (xBegin xEnd : Nat) (st : RState) (ee : Edge × EdgeType) : Option RState :=
  match clipEdge (ctx.camera.to_space ee.1.p0) (ctx.camera.to_space ee.1.p1) with
  | none => some st
  | some pp =>
    let sp := spanOf xBegin xEnd ctx.w pp.1 pp.2
    let cf := wallColors st.visitStack.length
    let nd := edgeNormData pp.1 pp.2
    let isPortal : Bool := ee.2 != EdgeType.wall
    let st1 := (List.range' sp.1 (sp.2 - sp.1)).foldl
      (columnUpdate ctx sid isPortal cf.1 cf.2 nd.1 nd.2) st
    match ee.2 with
    | EdgeType.wall => some st1
    | EdgeType.portal t => portalStep recurse sid t sp.1 sp.2 st1

/-- Edge loop of `render_sector`: thread the render state through
`processEdge` over the zipped edge/type list. -/
def edgeLoop (recurse : RState → Nat → Nat → Nat → Option RState) (ctx : Ctx)
    (sid : Nat) (xBegin xEnd : Nat) : List (Edge × EdgeType) → RState → Option RState
  | [], st => some st
  | ee :: rest, st =>
    match processEdge recurse ctx sid xBegin xEnd st ee with
    | none => none
    | some st1 => edgeLoop recurse ctx sid xBegin xEnd rest st1

/-- Fuel-indexed embedding of `Render::render_sector` (main.rs lines
541-675).  `none` means the fuel ran out; the termination theorem shows
that `sector count + 1` fuel always suffices from an empty visit stack,
which is how `render` invokes it. -/
def render_sector : Nat → Ctx → RState → Nat → Nat → Nat → Option RState
  | 0, _, _, _, _, _ => none
  | fuel + 1, ctx, st, sid, xBegin, xEnd =>
    match ctx.map.get_sector sid with
    | none => some st
    | some sector =>
      edgeLoop (render_sector fuel ctx) ctx sid xBegin xEnd
        (sector.edges.zip sector.edge_types) st

/-- `Render::render` (main.rs lines 680-706): locate the camera's sector;
if none, do nothing; otherwise run `render_sector` over the full column
range with freshly initialised scan buffers. -/
def render (map : Map) (camera : Camera) (w h : Nat) : Option RState :=
  match map.find_sector camera.location with
  | none => some (mkState w h)
  | some sid => render_sector (map.sectors.length + 1) ⟨map, camera, w, h⟩ (mkState w h) sid 0 w

/-- Replay of the recorded pixel writes, in order, onto a row-major pixel
buffer of row pitch `w` (last write wins, untouched pixels keep their
previous contents). -/
def applyWrites (l : List PixWrite) (w : Nat) (buf : Nat → Nat) : Nat → Nat :=
  l.foldl (fun b p => fun i => if i = p.row * w + p.col then p.color else b i) buf

/-- Modelled from the spec (section 4.3 step 5c), not from the code: the
claimed height-to-row conversion
`row = clamp(((camera.height - world_height) * inv_distance + 1)/2 * surface_height, 0, surface_height)`.
No renderer under `src/` computes rows this way; it exists only to be
compared against the embedded renderer. -/
def specRow (camH worldH invD : F32) (h : Nat) : Nat :=
  (iclamp (((camH - worldH) * invD + 1) / 2 * F32.ofNat h).trunc 0 (h : Int)).toNat

end Wmain

namespace Wmain

/-- Concrete camera at the origin looking along the world +y axis
(direction `(0,1)`, right `(1,0)`, all dot caches zero, eye height 1/2):
with it, `to_space` is the identity. -/
def cCam : Camera :=
  { location := ⟨0, 0⟩, height := (1 : F32)/2, rotation := 0,
    direction := ⟨0, 1⟩, right := ⟨1, 0⟩,
    location_dot_direction := 0, location_dot_right := 0 }

/-- Square sector around the origin; edge 2 (the far wall `(10,9)-(-10,9)`)
is a portal to sector 1, edge 3 (the left wall) a portal to sector 2. -/
def cSector0 : Sector :=
  { points := [⟨-10, -1⟩, ⟨10, -1⟩, ⟨10, 9⟩, ⟨-10, 9⟩],
    edge_types := [EdgeType.wall, EdgeType.wall, EdgeType.portal 1, EdgeType.portal 2],
    edges := build_edges [⟨-10, -1⟩, ⟨10, -1⟩, ⟨10, 9⟩, ⟨-10, 9⟩],
    floor := 0, ceiling := 1 }

/-- Sector behind the portal edge of sector 0, with a wall
`(3,2)-(-3,2)` that is nearer to the camera than the portal edge. -/
def cSector1 : Sector :=
  { points := [⟨-10, 9⟩, ⟨10, 9⟩, ⟨3, 2⟩, ⟨-3, 2⟩],
    edge_types := [EdgeType.portal 0, EdgeType.wall, EdgeType.wall, EdgeType.wall],
    edges := build_edges [⟨-10, 9⟩, ⟨10, 9⟩, ⟨3, 2⟩, ⟨-3, 2⟩],
    floor := 0, ceiling := 2 }

/-- Sector left of sector 0, entirely outside the view frustum: its shared
edge projects to the zero-width column span `[0, 0)`. -/
def cSector2 : Sector :=
  { points := [⟨-10, 9⟩, ⟨-10, -1⟩, ⟨-30, 4⟩],
    edge_types := [EdgeType.portal 0, EdgeType.wall, EdgeType.wall],
    edges := build_edges [⟨-10, 9⟩, ⟨-10, -1⟩, ⟨-30, 4⟩],
    floor := 0, ceiling := 1 }

/-- Three-sector concrete map used by the counterexample theorems. -/
def cMap : Map :=
  { sectors := [cSector0, cSector1, cSector2],
    camera_location := ⟨0, 0⟩, camera_rotation := 0 }

end Wmain

namespace Wmain

/-- Result state of the concrete render run on `cMap`; the counterexample
and witness theorems below inspect its traces. -/
def cRun : RState := (render cMap cCam 4 4).getD default

/-- All-zero initial pixel buffer used by the idempotence witness. -/
def zeroBuf : Nat → Nat := fun _ => 0

/-- Invariant carried through the recursive renderer: floor-buffer entries
stay at most `h`; every recorded pixel write is inside the surface; every
recorded portal descent goes to a sector not on the recorded path and has
an ordered span; every recorded column update stores the rows
`h/2 - y` / `h/2 + y` computed from its inverse distance, which lie in
`[0, h/2]` and `[h/2, h]`. -/
def StInv (ctx : Ctx) (st : RState) : Prop :=
  (∀ v ∈ st.floorBuf, v ≤ ctx.h) ∧
  (∀ p ∈ st.writes, p.row < ctx.h ∧ p.col < ctx.w) ∧
  (∀ ev ∈ st.descends, ev.target ∉ ev.stack ∧ ev.xp0 ≤ ev.xp1) ∧
  (∀ ev ∈ st.colEvents,
    ev.newCeil = ctx.h / 2 - yOf ctx.h ev.invDist ∧
    ev.newFloor = ctx.h / 2 + yOf ctx.h ev.invDist ∧
    ev.newCeil ≤ ctx.h / 2 ∧ ctx.h / 2 ≤ ev.newFloor ∧ ev.newFloor ≤ ctx.h)

end Wmain

namespace Wmap

/-- Concrete wall-only triangle sector with vertices `(0,0), (2,0), (0,2)`
(counter-clockwise). -/
def triSector : Sector :=
  { points := [⟨0, 0⟩, ⟨2, 0⟩, ⟨0, 2⟩],
    edges := build_edges [⟨0, 0⟩, ⟨2, 0⟩, ⟨0, 2⟩],
    floor := 0, ceiling := 1 }

/-- Upper square sector `[0,2] × [0,2]` of the two-sector map `m7`; its
bottom edge `(0,0)-(2,0)` is a portal to sector 1. -/
def mSector0 : Sector :=
  { points := [⟨0, 0⟩, ⟨2, 0⟩, ⟨2, 2⟩, ⟨0, 2⟩],
    edges := set_edge_types (build_edges [⟨0, 0⟩, ⟨2, 0⟩, ⟨2, 2⟩, ⟨0, 2⟩])
      [EdgeType.portal 1, EdgeType.wall, EdgeType.wall, EdgeType.wall],
    floor := 0, ceiling := 1 }

/-- Lower square sector `[0,2] × [-2,0]` of `m7`; its top edge
`(2,0)-(0,0)` is a portal back to sector 0. -/
def mSector1 : Sector :=
  { points := [⟨0, 0⟩, ⟨0, -2⟩, ⟨2, -2⟩, ⟨2, 0⟩],
    edges := set_edge_types (build_edges [⟨0, 0⟩, ⟨0, -2⟩, ⟨2, -2⟩, ⟨2, 0⟩])
      [EdgeType.wall, EdgeType.wall, EdgeType.wall, EdgeType.portal 0],
    floor := 0, ceiling := 1 }

/-- Two mutually adjacent square sectors sharing the edge `(0,0)-(2,0)`:
a point exactly on the shared edge is reported as contained by both. -/
def m7 : Map :=
  { sectors := [mSector0, mSector1],
    camera_location := ⟨0, 0⟩, camera_height := (1 : F32)/2, camera_rotation := 0 }

/-- Hypothesis of the amended C7: at most one sector of the map contains
the point. -/
def containsUnique (m : Map) (p : Vec2) : Prop :=
  ∀ i j si sj, m.sectors.get? i = some si → m.sectors.get? j = some sj →
    si.contains p = true → sj.contains p = true → i = j

/-- Hypothesis of C7: the point lies in the hint sector, or in a sector
reachable from it through exactly one portal edge. -/
def oneHopReach (m : Map) (p : Vec2) (hint : Nat) : Prop :=
  ∃ s, m.get_sector hint = some s ∧
    (s.contains p = true ∨
      ∃ t ts, t ∈ portalTargets s ∧ m.get_sector t = some ts ∧ ts.contains p = true)

end Wmap

/-! Helper lemmas. -/

theorem foldl_preserve {α σ : Type} (P : σ → Prop) (f : σ → α → σ) :
    ∀ (l : List α) (s : σ), P s → (∀ s a, a ∈ l → P s → P (f s a)) → P (l.foldl f s)
  | [], _, h0, _ => h0
  | a :: l, s, h0, hstep => by
    simp only [List.foldl_cons]
    exact foldl_preserve P f l (f s a) (hstep s a (by simp) h0)
      (fun s2 b hb hs => hstep s2 b (List.mem_cons_of_mem _ hb) hs)

theorem mem_rowRange {r a b : Nat} (h : r ∈ rowRange a b) : a ≤ r ∧ r < b := by
  rw [rowRange, List.mem_range'_1] at h
  omega

theorem iclamp_le_hi (v lo hi : Int) (h : lo ≤ hi) : iclamp v lo hi ≤ hi := by
  unfold iclamp
  split
  · omega
  · split <;> omega

theorem iclamp_toNat_le {v : Int} {k : Nat} : (iclamp v 0 (k : Int)).toNat ≤ k := by
  unfold iclamp
  split
  · omega
  · split <;> omega

theorem getD_le_of_all {l : List Nat} {h d : Nat} (hall : ∀ v ∈ l, v ≤ h) (hd : d ≤ h) :
    ∀ x, l.getD x d ≤ h := by
  induction l with
  | nil => intro x; simpa [List.getD]
  | cons a l ih =>
    intro x
    cases x with
    | zero => exact hall a (by simp)
    | succ x =>
      simp only [List.getD_cons_succ]
      exact ih (fun v hv => hall v (by simp [hv])) x

theorem nodup_bound {l : List Nat} {n : Nat} (hnd : l.Nodup) (hall : ∀ i ∈ l, i < n) :
    l.length ≤ n := by
  classical
  calc l.length = l.toFinset.card := (List.toFinset_card_of_nodup hnd).symm
    _ ≤ (Finset.range n).card :=
        Finset.card_le_card (fun i hi => Finset.mem_range.2 (hall i (List.mem_toFinset.1 hi)))
    _ = n := Finset.card_range n

theorem signBit_cases (q : F32) : signBit q = 0 ∨ signBit q = 1 := by
  unfold signBit
  split <;> simp

namespace Wmain

theorem yOf_le_half {h : Nat} {q : F32} : yOf h q ≤ h / 2 := iclamp_toNat_le

theorem columnUpdate_stack {ctx : Ctx} {sid : Nat} {ip : Bool} {c fc : Nat} {en : Vec2}
    {ied : F32} {st : RState} {x : Nat} :
    (columnUpdate ctx sid ip c fc en ied st x).visitStack = st.visitStack := rfl

theorem columnUpdate_inv {ctx : Ctx} {sid : Nat} {ip : Bool} {c fc : Nat} {en : Vec2}
    {ied : F32} {st : RState} {x : Nat} (hx : x < ctx.w) (h : StInv ctx st) :
    StInv ctx (columnUpdate ctx sid ip c fc en ied st x) := by
  obtain ⟨hf, hw, hd, hc⟩ := h
  unfold columnUpdate
  dsimp only
  set q := F32.abs ((F32.ofNat x / F32.ofNat ctx.w * 2 - 1) * en.x + 1 * en.y) * ied with hq
  have hy : yOf ctx.h q ≤ ctx.h / 2 := yOf_le_half
  refine ⟨?_, ?_, ?_, ?_⟩
  · intro v hv
    rcases List.mem_or_eq_of_mem_set hv with hv | rfl
    · exact hf v hv
    · omega
  · intro p hp
    rcases List.mem_append.1 hp with hp | hp
    · exact hw p hp
    · rcases List.mem_append.1 hp with hp | hp
      · rcases List.mem_append.1 hp with hp | hp
        · obtain ⟨r, hr, rfl⟩ := List.mem_map.1 hp
          have := mem_rowRange hr
          exact ⟨by show r < ctx.h; omega, hx⟩
        · rcases hip : ip with _ | _
          · rw [hip] at hp
            obtain ⟨r, hr, rfl⟩ := List.mem_map.1 hp
            have := mem_rowRange hr
            exact ⟨by show r < ctx.h; omega, hx⟩
          · rw [hip] at hp
            simp at hp
      · obtain ⟨r, hr, rfl⟩ := List.mem_map.1 hp
        have hrb := mem_rowRange hr
        have hof : st.floorBuf.getD x 0 ≤ ctx.h := getD_le_of_all hf (by omega) x
        exact ⟨by show r < ctx.h; omega, hx⟩
  · exact hd
  · intro ev hev
    rcases List.mem_append.1 hev with hev | hev
    · exact hc ev hev
    · rcases List.mem_singleton.1 hev with rfl
      refine ⟨rfl, rfl, ?_, ?_, ?_⟩ <;> show _ ≤ _ <;> dsimp only <;> omega

theorem spanOf_le (xB xE w : Nat) (p0 p1 : Vec2) (h : xB ≤ xE) :
    (spanOf xB xE w p0 p1).1 ≤ (spanOf xB xE w p0 p1).2 ∧ (spanOf xB xE w p0 p1).2 ≤ xE := by
  unfold spanOf
  have h0 := iclamp_le_hi (to_screen_x w p0) ((xB : Nat) : Int) ((xE : Nat) : Int) (by omega)
  have h1 := iclamp_le_hi (to_screen_x w p1) ((xB : Nat) : Int) ((xE : Nat) : Int) (by omega)
  dsimp only
  split <;> constructor <;> omega

end Wmain

namespace Wmain

theorem portalStep_inv {recurse : RState → Nat → Nat → Nat → Option RState} {ctx : Ctx}
    {sid t sp1 sp2 : Nat} {F st1 : RState}
    (hrec : ∀ st2 a b c stR, recurse st2 a b c = some stR → b ≤ c → c ≤ ctx.w →
      StInv ctx st2 → StInv ctx stR)
    (hps : portalStep recurse sid t sp1 sp2 F = some st1)
    (hsp : sp1 ≤ sp2) (hsp2 : sp2 ≤ ctx.w) (hF : StInv ctx F) : StInv ctx st1 := by
  unfold portalStep at hps
  dsimp only at hps
  by_cases hmem : t ∈ F.visitStack ++ [sid]
  · rw [if_pos hmem] at hps
    dsimp only at hps
    cases hps
    exact ⟨hF.1, hF.2.1, hF.2.2.1, hF.2.2.2⟩
  · rw [if_neg hmem] at hps
    cases hr : recurse
        { visitStack := F.visitStack ++ [sid], floorBuf := F.floorBuf, ceilBuf := F.ceilBuf,
          invDepthBuf := F.invDepthBuf, writes := F.writes,
          descends := F.descends ++ [⟨F.visitStack ++ [sid], t, sp1, sp2⟩],
          colEvents := F.colEvents } t sp1 sp2 with
    | none =>
      rw [hr] at hps
      cases hps
    | some stR =>
      rw [hr] at hps
      dsimp only at hps
      cases hps
      have hR : StInv ctx stR := by
        refine hrec _ _ _ _ stR hr hsp hsp2 ?_
        refine ⟨hF.1, hF.2.1, ?_, hF.2.2.2⟩
        intro ev hev
        rcases List.mem_append.1 hev with hev | hev
        · exact hF.2.2.1 ev hev
        · rcases List.mem_singleton.1 hev with rfl
          exact ⟨hmem, hsp⟩
      exact ⟨hR.1, hR.2.1, hR.2.2.1, hR.2.2.2⟩

theorem processEdge_inv {recurse : RState → Nat → Nat → Nat → Option RState} {ctx : Ctx}
    {sid xB xE : Nat} {st st1 : RState} {ee : Edge × EdgeType}
    (hrec : ∀ st2 t a b stR, recurse st2 t a b = some stR → a ≤ b → b ≤ ctx.w →
      StInv ctx st2 → StInv ctx stR)
    (hpe : processEdge recurse ctx sid xB xE st ee = some st1)
    (hBE : xB ≤ xE) (hEw : xE ≤ ctx.w) (h : StInv ctx st) : StInv ctx st1 := by
  unfold processEdge at hpe
  cases hcl : clipEdge (ctx.camera.to_space ee.1.p0) (ctx.camera.to_space ee.1.p1) with
  | none =>
    rw [hcl] at hpe
    dsimp only at hpe
    cases hpe
    exact h
  | some pp =>
    rw [hcl] at hpe
    dsimp only at hpe
    have hsp := spanOf_le xB xE ctx.w pp.1 pp.2 hBE
    have hfold : StInv ctx ((List.range' (spanOf xB xE ctx.w pp.1 pp.2).1
        ((spanOf xB xE ctx.w pp.1 pp.2).2 - (spanOf xB xE ctx.w pp.1 pp.2).1)).foldl
        (columnUpdate ctx sid (ee.2 != EdgeType.wall) (wallColors st.visitStack.length).1
          (wallColors st.visitStack.length).2 (edgeNormData pp.1 pp.2).1
          (edgeNormData pp.1 pp.2).2) st) := by
      apply foldl_preserve _ _ _ _ h
      intro s2 xx hxx hs2
      rw [List.mem_range'_1] at hxx
      exact columnUpdate_inv (by omega) hs2
    cases hty : ee.2 with
    | wall =>
      rw [hty] at hpe
      dsimp only at hpe
      cases hpe
      rw [hty] at hfold
      exact hfold
    | portal t =>
      rw [hty] at hpe
      dsimp only at hpe
      rw [hty] at hfold
      exact portalStep_inv hrec hpe hsp.1 (le_trans hsp.2 hEw) hfold

end Wmain

namespace Wmain

theorem edgeLoop_inv {recurse : RState → Nat → Nat → Nat → Option RState} {ctx : Ctx}
    {sid xB xE : Nat}
    (hrec : ∀ st2 t a b stR, recurse st2 t a b = some stR → a ≤ b → b ≤ ctx.w →
      StInv ctx st2 → StInv ctx stR) :
    ∀ (es : List (Edge × EdgeType)) (st stL : RState),
      edgeLoop recurse ctx sid xB xE es st = some stL →
      xB ≤ xE → xE ≤ ctx.w → StInv ctx st → StInv ctx stL
  | [], st, stL, heq, _, _, h => by
    cases heq
    exact h
  | ee :: rest, st, stL, heq, hBE, hEw, h => by
    rw [edgeLoop] at heq
    cases hpe : processEdge recurse ctx sid xB xE st ee with
    | none =>
      rw [hpe] at heq
      cases heq
    | some st2 =>
      rw [hpe] at heq
      dsimp only at heq
      exact edgeLoop_inv hrec rest st2 stL heq hBE hEw (processEdge_inv hrec hpe hBE hEw h)

theorem render_sector_inv :
    ∀ (fuel : Nat) (ctx : Ctx) (st : RState) (sid xB xE : Nat) (stR : RState),
      render_sector fuel ctx st sid xB xE = some stR → xB ≤ xE → xE ≤ ctx.w →
      StInv ctx st → StInv ctx stR
  | 0, _, _, _, _, _, _, heq => by cases heq
  | fuel + 1, ctx, st, sid, xB, xE, stR, heq => by
    intro hBE hEw h
    rw [render_sector] at heq
    cases hg : ctx.map.get_sector sid with
    | none =>
      rw [hg] at heq
      cases heq
      exact h
    | some sector =>
      rw [hg] at heq
      dsimp only at heq
      exact edgeLoop_inv
        (fun st2 t a b stR2 h2 ha hb hs => render_sector_inv fuel ctx st2 t a b stR2 h2 ha hb hs)
        _ _ _ heq hBE hEw h

theorem mkState_StInv (map : Map) (camera : Camera) (w h : Nat) :
    StInv ⟨map, camera, w, h⟩ (mkState w h) := by
  refine ⟨?_, ?_, ?_, ?_⟩ <;> intro v hv
  · rw [mkState] at hv
    exact le_of_eq (List.eq_of_mem_replicate hv)
  all_goals simp [mkState] at hv

theorem render_inv {map : Map} {camera : Camera} {w h : Nat} {st : RState}
    (hr : render map camera w h = some st) : StInv ⟨map, camera, w, h⟩ st := by
  unfold render at hr
  cases hf : map.find_sector camera.location with
  | none =>
    rw [hf] at hr
    cases hr
    exact mkState_StInv map camera w h
  | some sid =>
    rw [hf] at hr
    exact render_sector_inv _ _ _ _ _ _ _ hr (Nat.zero_le w) (le_refl w)
      (mkState_StInv map camera w h)

end Wmain

theorem nodup_push {l : List Nat} {a : Nat} (h : l.Nodup) (ha : a ∉ l) : (l ++ [a]).Nodup := by
  simp [List.nodup_append, h, ha]

namespace Wmain

theorem portalStep_total {recurse : RState → Nat → Nat → Nat → Option RState} {ctx : Ctx}
    (fuel : Nat) (sid t sp1 sp2 : Nat) (F : RState)
    (hrec : ∀ st2 u a b, st2.visitStack.Nodup →
      (∀ i ∈ st2.visitStack, i < ctx.map.sectors.length) → u ∉ st2.visitStack →
      ctx.map.sectors.length + 1 ≤ fuel + st2.visitStack.length →
      ∃ stR, recurse st2 u a b = some stR ∧ stR.visitStack = st2.visitStack)
    (hnd : F.visitStack.Nodup) (hvalid : ∀ i ∈ F.visitStack, i < ctx.map.sectors.length)
    (hsid : sid ∉ F.visitStack) (hsidlt : sid < ctx.map.sectors.length)
    (hfuel : ctx.map.sectors.length + 1 ≤ (fuel + 1) + F.visitStack.length) :
    ∃ stR, portalStep recurse sid t sp1 sp2 F = some stR ∧ stR.visitStack = F.visitStack := by
  unfold portalStep
  dsimp only
  by_cases hmem : t ∈ F.visitStack ++ [sid]
  · rw [if_pos hmem]
    dsimp only
    exact ⟨_, rfl, by simp⟩
  · rw [if_neg hmem]
    obtain ⟨stR, hr, hs⟩ := hrec
      { visitStack := F.visitStack ++ [sid], floorBuf := F.floorBuf, ceilBuf := F.ceilBuf,
        invDepthBuf := F.invDepthBuf, writes := F.writes,
        descends := F.descends ++ [⟨F.visitStack ++ [sid], t, sp1, sp2⟩],
        colEvents := F.colEvents } t sp1 sp2
      (nodup_push hnd hsid)
      (by
        intro i hi
        rcases List.mem_append.1 hi with hi | hi
        · exact hvalid i hi
        · rcases List.mem_singleton.1 hi with rfl
          exact hsidlt)
      hmem
      (by
        simp only [List.length_append, List.length_singleton]
        omega)
    rw [hr]
    dsimp only
    refine ⟨_, rfl, ?_⟩
    rw [hs]
    simp

theorem processEdge_total {recurse : RState → Nat → Nat → Nat → Option RState} {ctx : Ctx}
    (fuel : Nat) {sid xB xE : Nat} {st : RState} {ee : Edge × EdgeType}
    (hrec : ∀ st2 u a b, st2.visitStack.Nodup →
      (∀ i ∈ st2.visitStack, i < ctx.map.sectors.length) → u ∉ st2.visitStack →
      ctx.map.sectors.length + 1 ≤ fuel + st2.visitStack.length →
      ∃ stR, recurse st2 u a b = some stR ∧ stR.visitStack = st2.visitStack)
    (hnd : st.visitStack.Nodup) (hvalid : ∀ i ∈ st.visitStack, i < ctx.map.sectors.length)
    (hsid : sid ∉ st.visitStack) (hsidlt : sid < ctx.map.sectors.length)
    (hfuel : ctx.map.sectors.length + 1 ≤ (fuel + 1) + st.visitStack.length) :
    ∃ stR, processEdge recurse ctx sid xB xE st ee = some stR ∧
      stR.visitStack = st.visitStack := by
  unfold processEdge
  cases hcl : clipEdge (ctx.camera.to_space ee.1.p0) (ctx.camera.to_space ee.1.p1) with
  | none =>
    dsimp only
    exact ⟨st, rfl, rfl⟩
  | some pp =>
    dsimp only
    have hstack : ∀ (ip : Bool) (c fc : Nat) (en : Vec2) (ied : F32),
        ((List.range' (spanOf xB xE ctx.w pp.1 pp.2).1
          ((spanOf xB xE ctx.w pp.1 pp.2).2 - (spanOf xB xE ctx.w pp.1 pp.2).1)).foldl
          (columnUpdate ctx sid ip c fc en ied) st).visitStack = st.visitStack := by
      intro ip c fc en ied
      exact foldl_preserve (fun s2 => s2.visitStack = st.visitStack)
        (columnUpdate ctx sid ip c fc en ied)
        (List.range' (spanOf xB xE ctx.w pp.1 pp.2).1
          ((spanOf xB xE ctx.w pp.1 pp.2).2 - (spanOf xB xE ctx.w pp.1 pp.2).1))
        st rfl (fun s2 a _ hs => hs)
    cases hty : ee.2 with
    | wall =>
      dsimp only
      exact ⟨_, rfl, hstack _ _ _ _ _⟩
    | portal t =>
      dsimp only
      have hF := hstack (EdgeType.portal t != EdgeType.wall)
        (wallColors st.visitStack.length).1 (wallColors st.visitStack.length).2
        (edgeNormData pp.1 pp.2).1 (edgeNormData pp.1 pp.2).2
      obtain ⟨stR, hps, hs⟩ := portalStep_total fuel sid t
        (spanOf xB xE ctx.w pp.1 pp.2).1 (spanOf xB xE ctx.w pp.1 pp.2).2
        ((List.range' (spanOf xB xE ctx.w pp.1 pp.2).1
          ((spanOf xB xE ctx.w pp.1 pp.2).2 - (spanOf xB xE ctx.w pp.1 pp.2).1)).foldl
          (columnUpdate ctx sid (EdgeType.portal t != EdgeType.wall)
            (wallColors st.visitStack.length).1 (wallColors st.visitStack.length).2
            (edgeNormData pp.1 pp.2).1 (edgeNormData pp.1 pp.2).2) st)
        hrec
        (by rw [hF]; exact hnd) (by rw [hF]; exact hvalid) (by rw [hF]; exact hsid) hsidlt
        (by rw [hF]; exact hfuel)
      refine ⟨stR, hps, ?_⟩
      rw [hs, hF]

end Wmain

namespace Wmain

theorem edgeLoop_total {recurse : RState → Nat → Nat → Nat → Option RState} {ctx : Ctx}
    (fuel : Nat) {sid xB xE : Nat}
    (hrec : ∀ st2 u a b, st2.visitStack.Nodup →
      (∀ i ∈ st2.visitStack, i < ctx.map.sectors.length) → u ∉ st2.visitStack →
      ctx.map.sectors.length + 1 ≤ fuel + st2.visitStack.length →
      ∃ stR, recurse st2 u a b = some stR ∧ stR.visitStack = st2.visitStack)
    (hsidlt : sid < ctx.map.sectors.length) :
    ∀ (es : List (Edge × EdgeType)) (st : RState),
      st.visitStack.Nodup → (∀ i ∈ st.visitStack, i < ctx.map.sectors.length) →
      sid ∉ st.visitStack →
      ctx.map.sectors.length + 1 ≤ (fuel + 1) + st.visitStack.length →
      ∃ stR, edgeLoop recurse ctx sid xB xE es st = some stR ∧
        stR.visitStack = st.visitStack
  | [], st, _, _, _, _ => ⟨st, rfl, rfl⟩
  | ee :: rest, st, hnd, hvalid, hsid, hfuel => by
    obtain ⟨st1, hpe, hs1⟩ := processEdge_total fuel hrec hnd hvalid hsid hsidlt hfuel
    rw [edgeLoop, hpe]
    dsimp only
    obtain ⟨stR, hloop, hs⟩ := edgeLoop_total fuel hrec hsidlt rest st1
      (by rw [hs1]; exact hnd) (by rw [hs1]; exact hvalid) (by rw [hs1]; exact hsid)
      (by rw [hs1]; exact hfuel)
    exact ⟨stR, hloop, by rw [hs, hs1]⟩

theorem render_sector_total :
    ∀ (fuel : Nat) (ctx : Ctx) (st : RState) (sid xB xE : Nat),
      st.visitStack.Nodup → (∀ i ∈ st.visitStack, i < ctx.map.sectors.length) →
      sid ∉ st.visitStack →
      ctx.map.sectors.length + 1 ≤ fuel + st.visitStack.length →
      ∃ stR, render_sector fuel ctx st sid xB xE = some stR ∧
        stR.visitStack = st.visitStack
  | 0, ctx, st, sid, xB, xE, hnd, hvalid, _, hfuel => by
    exfalso
    have := nodup_bound hnd hvalid
    omega
  | fuel + 1, ctx, st, sid, xB, xE, hnd, hvalid, hsid, hfuel => by
    rw [render_sector]
    cases hg : ctx.map.get_sector sid with
    | none => exact ⟨st, rfl, rfl⟩
    | some sector =>
      dsimp only
      have hsidlt : sid < ctx.map.sectors.length := by
        unfold Map.get_sector at hg
        exact (List.get?_eq_some.1 hg).1
      exact edgeLoop_total fuel
        (fun st2 u a b h1 h2 h3 h4 => render_sector_total fuel ctx st2 u a b h1 h2 h3 h4)
        hsidlt (sector.edges.zip sector.edge_types) st hnd hvalid hsid hfuel

end Wmain

namespace Wmap

theorem collector_fold (p : Vec2) :
    ∀ (l : List Edge) (a : Nat), a < 4 →
      l.foldl (fun sc line => sc ||| (1 <<< signBit (edgeCoef line p))) a =
        (a ||| (if ∃ e ∈ l, signBit (edgeCoef e p) = 0 then 1 else 0)) |||
          (if ∃ e ∈ l, signBit (edgeCoef e p) = 1 then 2 else 0)
  | [], a, _ => by simp
  | e :: l, a, ha => by
    simp only [List.foldl_cons]
    rcases signBit_cases (edgeCoef e p) with hb | hb <;> rw [hb]
    · rw [collector_fold p l (a ||| (1 <<< 0)) (by interval_cases a <;> decide)]
      by_cases h0 : ∃ x ∈ l, signBit (edgeCoef x p) = 0 <;>
        by_cases h1 : ∃ x ∈ l, signBit (edgeCoef x p) = 1 <;>
        simp only [List.exists_mem_cons_iff, hb, h0, h1, true_or, or_true, or_false,
          if_true, if_false, eq_self_iff_true, reduceIte] <;>
        interval_cases a <;> decide
    · rw [collector_fold p l (a ||| (1 <<< 1)) (by interval_cases a <;> decide)]
      by_cases h0 : ∃ x ∈ l, signBit (edgeCoef x p) = 0 <;>
        by_cases h1 : ∃ x ∈ l, signBit (edgeCoef x p) = 1 <;>
        simp only [List.exists_mem_cons_iff, hb, h0, h1, true_or, or_true, or_false,
          if_true, if_false, eq_self_iff_true, reduceIte] <;>
        interval_cases a <;> decide

end Wmap

/-- C1, amended: `Sector::contains` evaluates the half-plane value for
every edge, collects each result's sign bit, and returns true iff the edge
list is nonempty and all the collected signs agree (the two-bit collector
is neither `0b00` nor `0b11`, i.e. exactly one sign value occurs). -/
theorem c1_contains_iff_signs_agree (s : Wmap.Sector) (p : Vec2) :
    s.contains p = true ↔
      s.edges ≠ [] ∧ ((∀ e ∈ s.edges, signBit (Wmap.edgeCoef e p) = 0) ∨
        (∀ e ∈ s.edges, signBit (Wmap.edgeCoef e p) = 1)) := by
  unfold Wmap.Sector.contains Wmap.sign_collector
  rw [Wmap.collector_fold p s.edges 0 (by decide)]
  by_cases h0 : ∃ e ∈ s.edges, signBit (Wmap.edgeCoef e p) = 0 <;>
    by_cases h1 : ∃ e ∈ s.edges, signBit (Wmap.edgeCoef e p) = 1
  · rw [if_pos h0, if_pos h1]
    constructor
    · intro hcontr
      exact absurd hcontr (by decide)
    · rintro ⟨-, hall | hall⟩
      · obtain ⟨e1, he1, hs1⟩ := h1
        have := hall e1 he1
        omega
      · obtain ⟨e0, he0, hs0⟩ := h0
        have := hall e0 he0
        omega
  · rw [if_pos h0, if_neg h1]
    constructor
    · intro _
      obtain ⟨e0, he0, hs0⟩ := h0
      refine ⟨List.ne_nil_of_mem he0, Or.inl ?_⟩
      intro e he
      rcases signBit_cases (Wmap.edgeCoef e p) with h | h
      · exact h
      · exact absurd ⟨e, he, h⟩ h1
    · intro _
      decide
  · rw [if_neg h0, if_pos h1]
    constructor
    · intro _
      obtain ⟨e1, he1, hs1⟩ := h1
      refine ⟨List.ne_nil_of_mem he1, Or.inr ?_⟩
      intro e he
      rcases signBit_cases (Wmap.edgeCoef e p) with h | h
      · exact absurd ⟨e, he, h⟩ h0
      · exact h
    · intro _
      decide
  · rw [if_neg h0, if_neg h1]
    constructor
    · intro hcontr
      exact absurd hcontr (by decide)
    · rintro ⟨hne, hall | hall⟩
      · obtain ⟨e, he⟩ := List.exists_mem_of_ne_nil _ hne
        exact absurd ⟨e, he, hall e he⟩ h0
      · obtain ⟨e, he⟩ := List.exists_mem_of_ne_nil _ hne
        exact absurd ⟨e, he, hall e he⟩ h1

/-- C1, counterexample: the claim as stated — `contains` is true iff the
collected per-edge signs are NOT all equal (neither all-0 nor all-1) — is
false: for the concrete triangle and the interior point `(1/2, 1/2)` every
edge's sign bit is `0`, yet `contains` returns true. -/
theorem c1_counterexample :
    ¬ (∀ (s : Wmap.Sector) (p : Vec2), s.contains p = true ↔
        ¬ (∀ e ∈ s.edges, signBit (Wmap.edgeCoef e p) = 0) ∧
        ¬ (∀ e ∈ s.edges, signBit (Wmap.edgeCoef e p) = 1)) := by
  intro hcl
  have h := (hcl Wmap.triSector ⟨(1 : F32)/2, (1 : F32)/2⟩).1 (by decide)
  exact h.1 (by decide)

namespace Wmap

theorem findSectorAux_isSome (p : Vec2) :
    ∀ (l : List Sector) (i k : Nat) (s : Sector),
      l.get? k = some s → s.contains p = true → (findSectorAux p l i).isSome = true
  | [], _, k, s, hk, _ => by simp at hk
  | a :: l, i, k, s, hk, hc => by
    rw [findSectorAux]
    by_cases hca : a.contains p = true
    · simp [hca]
    · rw [if_neg hca]
      cases k with
      | zero =>
        simp only [List.get?_cons_zero] at hk
        cases hk
        exact absurd hc hca
      | succ k => exact findSectorAux_isSome p l (i + 1) k s (by simpa using hk) hc

theorem findSectorAux_sound (p : Vec2) :
    ∀ (l : List Sector) (i j : Nat), findSectorAux p l i = some j →
      i ≤ j ∧ ∃ s, l.get? (j - i) = some s ∧ s.contains p = true
  | [], i, j, h => by simp [findSectorAux] at h
  | a :: l, i, j, h => by
    rw [findSectorAux] at h
    by_cases hca : a.contains p = true
    · rw [if_pos hca] at h
      cases h
      exact ⟨le_refl i, a, by simp, hca⟩
    · rw [if_neg hca] at h
      obtain ⟨hij, s, hs, hc⟩ := findSectorAux_sound p l (i + 1) j h
      refine ⟨by omega, s, ?_, hc⟩
      have hji : j - i = (j - (i + 1)) + 1 := by omega
      rw [hji]
      simpa using hs

theorem find_sector_mem {m : Map} {p : Vec2} {j : Nat} (h : m.find_sector p = some j) :
    ∃ s, m.sectors.get? j = some s ∧ s.contains p = true := by
  obtain ⟨hij, s, hs, hc⟩ := findSectorAux_sound p m.sectors 0 j h
  exact ⟨s, by simpa using hs, hc⟩

theorem find_sector_isSome {m : Map} {p : Vec2} {k : Nat} {s : Sector}
    (hk : m.sectors.get? k = some s) (hc : s.contains p = true) :
    (m.find_sector p).isSome = true :=
  findSectorAux_isSome p m.sectors 0 k s hk hc

end Wmap

/-- C7, amended: whenever at most one sector of the map contains `p`, and
`p` lies in the hint sector or in a sector one portal hop from it,
`find_adjacent_sector` agrees with `find_sector`.  (Without the uniqueness
hypothesis the claim fails, see the counterexample.) -/
theorem c7_find_adjacent_eq_find_sector :
    ∀ (m : Wmap.Map) (p : Vec2) (hint : Nat),
      Wmap.containsUnique m p → Wmap.oneHopReach m p hint →
      m.find_adjacent_sector p hint = m.find_sector p := by
  intro m p hint huniq hreach
  obtain ⟨s, hs, hcase⟩ := hreach
  have hsg : m.sectors.get? hint = some s := hs
  unfold Wmap.Map.find_adjacent_sector
  rw [hs]
  dsimp only
  by_cases hc : s.contains p = true
  · rw [if_pos hc]
    have hsome : (m.find_sector p).isSome = true := Wmap.find_sector_isSome hsg hc
    obtain ⟨j, hj⟩ := Option.isSome_iff_exists.1 hsome
    obtain ⟨sj, hsj, hcj⟩ := Wmap.find_sector_mem hj
    have hjh : j = hint := huniq j hint sj s hsj hsg hcj hc
    rw [hj, hjh]
  · rw [if_neg hc]
    rcases hcase with hc2 | ⟨t, ts, htmem, hts, hct⟩
    · exact absurd hc2 hc
    have htsg : m.sectors.get? t = some ts := hts
    have hmemc : (t, ts) ∈ (Wmap.portalTargets s).filterMap
        (fun id => (m.sectors.get? id).map (fun s2 => (id, s2))) :=
      List.mem_filterMap.2 ⟨t, htmem, by rw [htsg]; rfl⟩
    cases hfd : ((Wmap.portalTargets s).filterMap
        (fun id => (m.sectors.get? id).map (fun s2 => (id, s2)))).find?
        (fun pr => pr.2.contains p) with
    | none =>
      exfalso
      have := List.find?_eq_none.1 hfd (t, ts) hmemc
      exact this hct
    | some pr =>
      have hpr : pr.2.contains p = true := by
        have := List.find?_some hfd
        simpa using this
      have hprm := List.mem_of_find?_eq_some hfd
      obtain ⟨t2, ht2mem, hf2⟩ := List.mem_filterMap.1 hprm
      obtain ⟨s2, hg2, hf3⟩ := Option.map_eq_some'.1 hf2
      cases hf3
      have hsome : (m.find_sector p).isSome = true := Wmap.find_sector_isSome hg2 hpr
      obtain ⟨j, hj⟩ := Option.isSome_iff_exists.1 hsome
      obtain ⟨sj, hsj, hcj⟩ := Wmap.find_sector_mem hj
      have hjh : j = t2 := huniq j t2 sj s2 hsj hg2 hcj hpr
      rw [hj, hjh]
      rfl

/-- C7, counterexample: the claim as stated fails on the code.  In the
two-sector map `m7` the point `(1, 0)` lies exactly on the shared portal
edge, so both sectors report it as contained; with hint sector 1 (which
does contain the point, satisfying the claim's premise),
`find_adjacent_sector` answers `some 1` while `find_sector` answers
`some 0`. -/
theorem c7_counterexample :
    ¬ (∀ (m : Wmap.Map) (p : Vec2) (hint : Nat), Wmap.oneHopReach m p hint →
        m.find_adjacent_sector p hint = m.find_sector p) := by
  intro hcl
  have h := hcl Wmap.m7 ⟨1, 0⟩ 1 ⟨Wmap.mSector1, by decide, Or.inl (by decide)⟩
  exact absurd h (by decide)

/-- C7, witness for the amended theorem: for the interior point `(1, 1)`
of sector 0 of `m7` (contained in no other sector) and hint 0, both
queries agree. -/
theorem c7_witness :
    Wmap.m7.find_adjacent_sector ⟨1, 1⟩ 0 = Wmap.m7.find_sector ⟨1, 1⟩ := by
  have honly : ∀ (i : Nat) (si : Wmap.Sector), Wmap.m7.sectors.get? i = some si →
      si.contains ⟨1, 1⟩ = true → i = 0 := by
    intro i si hi hc
    cases i with
    | zero => rfl
    | succ n =>
      cases n with
      | zero =>
        have hsi : Wmap.mSector1 = si := by
          rw [show Wmap.m7.sectors.get? 1 = some Wmap.mSector1 from rfl] at hi
          cases hi
          rfl
        rw [← hsi] at hc
        exact absurd hc (by decide)
      | succ k =>
        rw [show Wmap.m7.sectors = [Wmap.mSector0, Wmap.mSector1] from rfl] at hi
        simp at hi
  exact c7_find_adjacent_eq_find_sector Wmap.m7 ⟨1, 1⟩ 0
    (fun i j si sj hi hj hci hcj => by rw [honly i si hi hci, honly j sj hj hcj])
    ⟨Wmap.mSector0, by decide, Or.inl (by decide)⟩

theorem cRun_eq : Wmain.render Wmain.cMap Wmain.cCam 4 4 = some Wmain.cRun := by decide

/-- C2: during one render call the recursive portal traversal never
descends into a sector whose id already appears on the active
visited-sector stack (each recorded descent's target is absent from the
recorded root-to-call path). -/
theorem c2_no_descend_into_visited :
    ∀ (map : Wmain.Map) (camera : Camera) (w h : Nat) (st : Wmain.RState),
      Wmain.render map camera w h = some st →
      ∀ ev ∈ st.descends, ev.target ∉ ev.stack :=
  fun _ _ _ _ _ hr ev hev => ((Wmain.render_inv hr).2.2.1 ev hev).1

/-- C2, witness at the concrete run: the descent into sector 1 recorded
with path `[0]` indeed has `1 ∉ [0]`. -/
theorem c2_witness : (1 : Nat) ∉ [(0 : Nat)] :=
  c2_no_descend_into_visited Wmain.cMap Wmain.cCam 4 4 Wmain.cRun cRun_eq
    ⟨[0], 1, 0, 4⟩ (by decide)

/-- C3: `render_sector` terminates for every map, camera, surface extent
and starting id: fuel `sector count + 1` always suffices from the fresh
render state, because the visit stack never repeats a sector id. -/
theorem c3_render_sector_terminates :
    ∀ (map : Wmain.Map) (camera : Camera) (w h sid xB xE : Nat),
      (Wmain.render_sector (map.sectors.length + 1) ⟨map, camera, w, h⟩
        (Wmain.mkState w h) sid xB xE).isSome = true := by
  intro map camera w h sid xB xE
  obtain ⟨stR, hR, -⟩ := Wmain.render_sector_total (map.sectors.length + 1)
    ⟨map, camera, w, h⟩ (Wmain.mkState w h) sid xB xE List.nodup_nil
    (fun i hi => absurd hi (List.not_mem_nil i)) (List.not_mem_nil sid)
    (Nat.le_add_right _ _)
  rw [hR]
  rfl

/-- C4, counterexample: the claim that painted rows follow
`clamp(((camera.height - world_height) * inv_distance + 1)/2 * h, 0, h)`
is false at the concrete run: the portal-edge column 0 of sector 0 stores
ceiling row 2, while the claimed formula yields row 1. -/
theorem c4_counterexample :
    ¬ (∀ (map : Wmain.Map) (camera : Camera) (w h : Nat) (st : Wmain.RState),
        Wmain.render map camera w h = some st →
        ∀ ev ∈ st.colEvents, ∀ sec, map.sectors.get? ev.sid = some sec →
          ev.newCeil = Wmain.specRow camera.height sec.ceiling ev.invDist h ∧
          ev.newFloor = Wmain.specRow camera.height sec.floor ev.invDist h) := by
  intro hcl
  have h := hcl Wmain.cMap Wmain.cCam 4 4 Wmain.cRun cRun_eq
    ⟨0, 0, ⟨640000, 5760000⟩, 0, 2, 4, 2⟩ (by decide) Wmain.cSector0 (by decide)
  exact absurd h.1 (by decide)

/-- C4, amended: the per-column rows depend only on the inverse distance
and the surface height — ceiling row `h/2 - y` and floor row `h/2 + y`
with `y = clamp(trunc(inv_distance * h), 0, h/2)`; the sector's floor and
ceiling heights and the camera height are not consulted. -/
theorem c4_rows_from_inv_distance_only :
    ∀ (map : Wmain.Map) (camera : Camera) (w h : Nat) (st : Wmain.RState),
      Wmain.render map camera w h = some st →
      ∀ ev ∈ st.colEvents, ev.newCeil = h / 2 - Wmain.yOf h ev.invDist ∧
        ev.newFloor = h / 2 + Wmain.yOf h ev.invDist :=
  fun _ _ _ _ _ hr ev hev =>
    ⟨((Wmain.render_inv hr).2.2.2 ev hev).1, ((Wmain.render_inv hr).2.2.2 ev hev).2.1⟩

/-- C4, witness at the concrete run: the first recorded column update of
sector 0 stores exactly the rows `4/2 ∓ y` of its inverse distance. -/
theorem c4_witness :
    (2 : Nat) = 4 / 2 - Wmain.yOf 4 ⟨640000, 5760000⟩ ∧
    (2 : Nat) = 4 / 2 + Wmain.yOf 4 ⟨640000, 5760000⟩ :=
  c4_rows_from_inv_distance_only Wmain.cMap Wmain.cCam 4 4 Wmain.cRun cRun_eq
    ⟨0, 0, ⟨640000, 5760000⟩, 0, 2, 4, 2⟩ (by decide)

/-- C5, counterexample: the open column range does not shrink
monotonically: in the concrete two-sector run the near wall of the portal
target sector rewrites column 0 from `ceil 2 / floor 2` to
`ceil 0 / floor 4`, so `ceil_buffer[0]` decreases. -/
theorem c5_counterexample :
    ¬ (∀ (map : Wmain.Map) (camera : Camera) (w h : Nat) (st : Wmain.RState),
        Wmain.render map camera w h = some st →
        ∀ ev ∈ st.colEvents, ev.oldCeil ≤ ev.newCeil ∧ ev.newFloor ≤ ev.oldFloor) := by
  intro hcl
  have h := hcl Wmain.cMap Wmain.cCam 4 4 Wmain.cRun cRun_eq
    ⟨1, 0, ⟨5184, 10368⟩, 2, 0, 2, 4⟩ (by decide)
  exact absurd h.1 (by decide)

/-- C5, amended: the rows written into the scan buffers are not clamped to
the previously open range; what does hold is that every stored ceiling row
lies in `[0, h/2]` and every stored floor row in `[h/2, h]`. -/
theorem c5_buffer_rows_bounded :
    ∀ (map : Wmain.Map) (camera : Camera) (w h : Nat) (st : Wmain.RState),
      Wmain.render map camera w h = some st →
      ∀ ev ∈ st.colEvents, ev.newCeil ≤ h / 2 ∧ h / 2 ≤ ev.newFloor ∧ ev.newFloor ≤ h :=
  fun _ _ _ _ _ hr ev hev => ((Wmain.render_inv hr).2.2.2 ev hev).2.2

/-- C5, witness at the concrete run: the rewritten column 0 stays within
the surface bounds. -/
theorem c5_witness : (0 : Nat) ≤ 4 / 2 ∧ 4 / 2 ≤ (4 : Nat) ∧ (4 : Nat) ≤ 4 :=
  c5_buffer_rows_bounded Wmain.cMap Wmain.cCam 4 4 Wmain.cRun cRun_eq
    ⟨1, 0, ⟨5184, 10368⟩, 2, 0, 2, 4⟩ (by decide)

/-- C6, counterexample: a portal edge whose clipped span is empty still
recurses: in the concrete run the left portal edge of sector 0 is clamped
to the zero-width span `[0, 0)` and the renderer nevertheless descends
into sector 2. -/
theorem c6_counterexample :
    ¬ (∀ (map : Wmain.Map) (camera : Camera) (w h : Nat) (st : Wmain.RState),
        Wmain.render map camera w h = some st →
        ∀ ev ∈ st.descends, ev.xp0 < ev.xp1) := by
  intro hcl
  have h := hcl Wmain.cMap Wmain.cCam 4 4 Wmain.cRun cRun_eq ⟨[0], 2, 0, 0⟩ (by decide)
  exact absurd h (by decide)

/-- C6, amended: the renderer recurses through every portal edge whose
target is not on the visit stack, with an ordered span `xp0 ≤ xp1`;
zero-width spans recurse too. -/
theorem c6_descend_span_ordered :
    ∀ (map : Wmain.Map) (camera : Camera) (w h : Nat) (st : Wmain.RState),
      Wmain.render map camera w h = some st →
      ∀ ev ∈ st.descends, ev.xp0 ≤ ev.xp1 :=
  fun _ _ _ _ _ hr ev hev => ((Wmain.render_inv hr).2.2.1 ev hev).2

/-- C6, witness at the concrete run: the zero-width descent into sector 2
has an ordered span. -/
theorem c6_witness : (0 : Nat) ≤ 0 :=
  c6_descend_span_ordered Wmain.cMap Wmain.cCam 4 4 Wmain.cRun cRun_eq
    ⟨[0], 2, 0, 0⟩ (by decide)

/-- C8: calling `render_sector` with an out-of-range sector id is a silent
no-op — the state (pixel writes, scan buffers, traces) is returned
unchanged. -/
theorem c8_out_of_range_noop :
    ∀ (fuel : Nat) (ctx : Wmain.Ctx) (st : Wmain.RState) (sid xB xE : Nat),
      ctx.map.sectors.length ≤ sid →
      Wmain.render_sector (fuel + 1) ctx st sid xB xE = some st := by
  intro fuel ctx st sid xB xE hlen
  rw [Wmain.render_sector]
  have hg : ctx.map.get_sector sid = none := by
    unfold Wmain.Map.get_sector
    exact List.get?_eq_none.2 hlen
  rw [hg]

/-- C8, witness: sector id 5 is out of range for the three-sector `cMap`
and the call returns the initial state unchanged. -/
theorem c8_witness :
    Wmain.render_sector 1 ⟨Wmain.cMap, Wmain.cCam, 4, 4⟩ (Wmain.mkState 4 4) 5 0 4 =
      some (Wmain.mkState 4 4) :=
  c8_out_of_range_noop 0 ⟨Wmain.cMap, Wmain.cCam, 4, 4⟩ (Wmain.mkState 4 4) 5 0 4 (by decide)

namespace Wmain

theorem applyWrites_cons (p : PixWrite) (l : List PixWrite) (w : Nat) (buf : Nat → Nat) :
    applyWrites (p :: l) w buf =
      applyWrites l w (fun i => if i = p.row * w + p.col then p.color else buf i) := rfl

theorem applyWrites_no_hit (w : Nat) :
    ∀ (l : List PixWrite) (buf : Nat → Nat) (i : Nat),
      (∀ p ∈ l, p.row * w + p.col ≠ i) → applyWrites l w buf i = buf i
  | [], _, _, _ => rfl
  | p :: l, buf, i, h => by
    rw [applyWrites_cons]
    rw [applyWrites_no_hit w l _ i (fun q hq => h q (List.mem_cons_of_mem _ hq))]
    exact if_neg (fun he => h p (List.mem_cons_self p l) he.symm)

theorem applyWrites_agree (w : Nat) :
    ∀ (l : List PixWrite) (b1 b2 : Nat → Nat) (i : Nat),
      (b1 i = b2 i ∨ ∃ p ∈ l, p.row * w + p.col = i) →
      applyWrites l w b1 i = applyWrites l w b2 i
  | [], b1, b2, i, h => by
    rcases h with h | ⟨p, hp, _⟩
    · exact h
    · simp at hp
  | p :: l, b1, b2, i, h => by
    rw [applyWrites_cons, applyWrites_cons]
    apply applyWrites_agree w l _ _ i
    by_cases hpi : i = p.row * w + p.col
    · left
      simp [hpi]
    · rcases h with h | ⟨q, hq, hqi⟩
      · left
        simp [hpi, h]
      · rcases List.mem_cons.1 hq with rfl | hq2
        · exact absurd hqi (fun he => hpi he.symm)
        · exact Or.inr ⟨q, hq2, hqi⟩

end Wmain

/-- C9: rendering the same `(Map, Camera, Surface)` triple twice produces
byte-identical pixel buffers: the recorded write list is a pure function
of the inputs (the pixel buffer is never read), and replaying it a second
time over the already-rendered buffer changes nothing. -/
theorem c9_render_idempotent :
    ∀ (map : Wmain.Map) (camera : Camera) (w h : Nat) (st : Wmain.RState)
      (buf : Nat → Nat),
      Wmain.render map camera w h = some st →
      Wmain.applyWrites st.writes w (Wmain.applyWrites st.writes w buf) =
        Wmain.applyWrites st.writes w buf := by
  intro map camera w h st buf _
  funext i
  by_cases hex : ∃ p ∈ st.writes, p.row * w + p.col = i
  · exact Wmain.applyWrites_agree w st.writes _ buf i (Or.inr hex)
  · push_neg at hex
    exact Wmain.applyWrites_agree w st.writes _ buf i
      (Or.inl (Wmain.applyWrites_no_hit w st.writes buf i hex))

/-- C9, witness at the concrete run: replaying the recorded writes twice
over the all-zero buffer equals replaying them once. -/
theorem c9_witness :
    Wmain.applyWrites Wmain.cRun.writes 4
        (Wmain.applyWrites Wmain.cRun.writes 4 Wmain.zeroBuf) =
      Wmain.applyWrites Wmain.cRun.writes 4 Wmain.zeroBuf :=
  c9_render_idempotent Wmain.cMap Wmain.cCam 4 4 Wmain.cRun Wmain.zeroBuf cRun_eq

/-- C10: every pixel write recorded by a render call stays inside the
surface: its row is below the height and its column below the width, so
the flat index `row * w + col` is inside the `w * h` buffer. -/
theorem c10_writes_in_bounds :
    ∀ (map : Wmain.Map) (camera : Camera) (w h : Nat) (st : Wmain.RState),
      Wmain.render map camera w h = some st →
      ∀ p ∈ st.writes, p.row < h ∧ p.col < w :=
  fun _ _ _ _ _ hr p hp => (Wmain.render_inv hr).2.1 p hp

/-- C10, witness at the concrete run: the first recorded write lands
inside the 4×4 surface. -/
theorem c10_witness : (0 : Nat) < 4 ∧ (0 : Nat) < 4 :=
  c10_writes_in_bounds Wmain.cMap Wmain.cCam 4 4 Wmain.cRun cRun_eq
    ⟨0, 0, 0xDDDDDD⟩ (by decide)
